import Mathlib

/-!
# Verification of coroot-connect (`connect.go`)

A shallow embedding of the tunnel agent in `connect.go`:
the handshake-header wire encoding, the `connect` control flow,
the endpoint resolver (`getEndpoints`), the tunnel-manager
reconciliation step in `loop`, the backoff policy of
`keepConnected`, and the per-stream relay logic of `proxy`.
Bytes are modelled as `Nat` values below 256 in lists; machine
integers are `Nat` with explicit `% 2^w` where Go would wrap.
-/

namespace CorootConnect

/-! ## Wire encoding of the Handshake Header (`Header`, `connect` lines 163-173) -/

/-- A byte string: a list of byte values. -/
abbrev Bytes := List Nat

/-- Go `copy(dst[:], src)` into a zero-initialised fixed array of size `n`:
the first `min n src.length` bytes come from `src`, the rest stay zero.
Shorter input is zero-padded on the right; longer input is truncated. -/
def copyFixed (n : Nat) (src : Bytes) : Bytes :=
  src.take n ++ List.replicate (n - src.length) 0

/-- Little-endian 4-byte encoding of a `uint32` value (as written by
`binary.Write(..., binary.LittleEndian, h)` for the `ConfigSize` field). -/
def uint32LE (x : Nat) : Bytes :=
  [x % 256, x / 256 % 256, x / 256 ^ 2 % 256, x / 256 ^ 3 % 256]

/-- Little-endian decoding of a byte list. -/
def readLE : Bytes → Nat
  | [] => 0
  | b :: rest => b + 256 * readLE rest

/-- The `Header` struct of `connect.go`: a 36-byte token field, a 16-byte
version field and a `uint32` config size. -/
structure Header where
  Token : Bytes
  Version : Bytes
  ConfigSize : Nat

/-- Lines 170-173 of `connect`: `h := Header{}`, `copy(h.Token[:], token)`,
`copy(h.Version[:], version)`, `h.ConfigSize = uint32(len(config))`.
The Go `uint32` conversion wraps modulo `2^32`. -/
def mkHeader (token version config : Bytes) : Header :=
  { Token := copyFixed 36 token
    Version := copyFixed 16 version
    ConfigSize := config.length % 2 ^ 32 }

/-- Wire image of a `Header` under `binary.Write(..., LittleEndian, h)`:
the token field, the version field, then the 4-byte little-endian size. -/
def encodeHeader (h : Header) : Bytes :=
  h.Token ++ h.Version ++ uint32LE h.ConfigSize

/-- The full client→gateway handshake message: header then the raw config
payload (`binary.Write(gwConn, ..., h)` followed by `gwConn.Write(config)`). -/
def encodeConnect (token version config : Bytes) : Bytes :=
  encodeHeader (mkHeader token version config) ++ config

/-- Gateway-side decoding (as in the test `readHeaderAndConfig`): read the
36-byte token field, the 16-byte version field, the little-endian `uint32`
config size, then exactly that many payload bytes. -/
def decodeConnect (bs : Bytes) : Option (Bytes × Bytes × Bytes) :=
  if bs.length < 56 then none
  else
    let tok := bs.take 36
    let ver := (bs.drop 36).take 16
    let sz := readLE ((bs.drop 52).take 4)
    let rest := bs.drop 56
    if rest.length < sz then none
    else some (tok, ver, rest.take sz)

theorem copyFixed_length (n : Nat) (s : Bytes) : (copyFixed n s).length = n := by
  simp only [copyFixed, List.length_append, List.length_take, List.length_replicate]
  omega

theorem readLE_uint32LE (x : Nat) : readLE (uint32LE x) = x % 2 ^ 32 := by
  simp only [uint32LE, readLE]
  omega

theorem uint32LE_length (x : Nat) : (uint32LE x).length = 4 := rfl

theorem copyFixed_eq_pad (n : Nat) (s : Bytes) (h : s.length ≤ n) :
    copyFixed n s = s ++ List.replicate (n - s.length) 0 := by
  simp [copyFixed, List.take_of_length_le h]

theorem decodeConnect_encode (tok ver sz pay : Bytes)
    (htok : tok.length = 36) (hver : ver.length = 16) (hsz : sz.length = 4)
    (hrd : readLE sz = pay.length) :
    decodeConnect (tok ++ (ver ++ (sz ++ pay))) = some (tok, ver, pay) := by
  have hlen : (tok ++ (ver ++ (sz ++ pay))).length = 56 + pay.length := by
    simp [htok, hver, hsz]; omega
  have htake36 : (tok ++ (ver ++ (sz ++ pay))).take 36 = tok :=
    List.take_left' htok
  have hdrop36 : (tok ++ (ver ++ (sz ++ pay))).drop 36 = ver ++ (sz ++ pay) :=
    List.drop_left' htok
  have htake16 : (ver ++ (sz ++ pay)).take 16 = ver :=
    List.take_left' hver
  have hdrop52 : (tok ++ (ver ++ (sz ++ pay))).drop 52 = sz ++ pay := by
    have h52 : (tok ++ ver).length = 52 := by simp [htok, hver]
    calc (tok ++ (ver ++ (sz ++ pay))).drop 52
        = ((tok ++ ver) ++ (sz ++ pay)).drop 52 := by simp
      _ = sz ++ pay := List.drop_left' h52
  have htake4 : (sz ++ pay).take 4 = sz := List.take_left' hsz
  have hdrop56 : (tok ++ (ver ++ (sz ++ pay))).drop 56 = pay := by
    have h56 : ((tok ++ ver) ++ sz).length = 56 := by simp [htok, hver, hsz]
    calc (tok ++ (ver ++ (sz ++ pay))).drop 56
        = (((tok ++ ver) ++ sz) ++ pay).drop 56 := by simp
      _ = pay := List.drop_left' h56
  simp only [decodeConnect, hlen, hdrop36, htake36, htake16, hdrop52, htake4,
    hdrop56, hrd]
  simp

/-- C1: For every token `T` of at most 36 bytes, version string `V` of at
most 16 bytes and config payload `C` (of representable length), the
handshake message encoded by `connect` is the 36-byte token field holding
`T` zero-padded on the right, the 16-byte version field holding `V`
zero-padded on the right, the little-endian `uint32` `config_size` equal to
the exact byte length of `C`, followed by the bytes of `C`; and decoding
this encoding yields back the padded `T`, the padded `V` and exactly `C`. -/
theorem handshake_header_roundtrip (T V C : Bytes)
    (hT : T.length ≤ 36) (hV : V.length ≤ 16) (hC : C.length < 2 ^ 32) :
    encodeConnect T V C =
      (T ++ List.replicate (36 - T.length) 0)
        ++ ((V ++ List.replicate (16 - V.length) 0)
        ++ (uint32LE C.length ++ C))
    ∧ (mkHeader T V C).ConfigSize = C.length
    ∧ decodeConnect (encodeConnect T V C) =
        some (T ++ List.replicate (36 - T.length) 0,
              V ++ List.replicate (16 - V.length) 0, C) := by
  have hC' : C.length < 4294967296 := by simpa using hC
  have hmod : C.length % 4294967296 = C.length := Nat.mod_eq_of_lt hC'
  have hmod2 : C.length % 2 ^ 32 = C.length := by simpa using hmod
  have henc : encodeConnect T V C =
      copyFixed 36 T ++ (copyFixed 16 V ++ (uint32LE C.length ++ C)) := by
    simp only [encodeConnect, encodeHeader, mkHeader, hmod2, List.append_assoc]
  refine ⟨?_, ?_, ?_⟩
  · rw [henc, copyFixed_eq_pad 36 T hT, copyFixed_eq_pad 16 V hV]
  · simpa [mkHeader] using hmod2
  · have hdec : decodeConnect
        (copyFixed 36 T ++ (copyFixed 16 V ++ (uint32LE C.length ++ C))) =
        some (copyFixed 36 T, copyFixed 16 V, C) :=
      decodeConnect_encode (copyFixed 36 T) (copyFixed 16 V)
        (uint32LE C.length) C (copyFixed_length 36 T) (copyFixed_length 16 V)
        (uint32LE_length C.length) (by rw [readLE_uint32LE]; exact hmod2)
    rw [henc, hdec, copyFixed_eq_pad 36 T hT, copyFixed_eq_pad 16 V hV]

/-- Witness for C1 at a concrete token, version and config. -/
theorem handshake_header_roundtrip_witness :
    ([7, 8, 9] : Bytes).length ≤ 36 ∧ ([1, 2] : Bytes).length ≤ 16 ∧
      ([5, 6] : Bytes).length < 2 ^ 32 ∧
      decodeConnect (encodeConnect [7, 8, 9] [1, 2] [5, 6]) =
        some ([7, 8, 9] ++ List.replicate 33 0, [1, 2] ++ List.replicate 14 0,
          [5, 6]) :=
  ⟨by decide, by decide, by norm_num,
    (handshake_header_roundtrip [7, 8, 9] [1, 2] [5, 6]
      (by decide) (by decide) (by norm_num)).2.2⟩

/-! ## Token-length validation at startup (`main` lines 88-91) -/

/-- Startup check: `main` exits unless `len(token) == 36`; this is the only length check
in the program — `connect` itself performs none. -/
def validTokenAtStartup (token : Bytes) : Bool :=
  token.length == 36

/-- C10: a token longer than 36 bytes is silently truncated by the header
encoder to its first 36 bytes, and — independently — a version longer
than 16 bytes to its first 16 bytes, with no padding in either case; the
encoding is defined with the fixed layout for every input whatsoever (so
`connect` raises no error and performs no length validation), and the
36-byte token check rejecting any other length lives only in `main`,
outside `connect`. -/
theorem connect_truncates_long_inputs (T V C : Bytes) :
    (36 < T.length → (mkHeader T V C).Token = T.take 36)
    ∧ (16 < V.length → (mkHeader T V C).Version = V.take 16)
    ∧ encodeConnect T V C =
        copyFixed 36 T ++ (copyFixed 16 V ++ (uint32LE (C.length % 2 ^ 32)
          ++ C))
    ∧ (T.length ≠ 36 → validTokenAtStartup T = false) := by
  refine ⟨?_, ?_, ?_, ?_⟩
  · intro hT
    have h0 : 36 - T.length = 0 := by omega
    simp [mkHeader, copyFixed, h0]
  · intro hV
    have h0 : 16 - V.length = 0 := by omega
    simp [mkHeader, copyFixed, h0]
  · simp only [encodeConnect, encodeHeader, mkHeader, List.append_assoc]
  · intro hT
    simp only [validTokenAtStartup, beq_eq_false_iff_ne, ne_eq]
    exact hT

/-- Witness for C10: a 40-byte token with a short (7-byte) version, and a
20-byte version with a short token, each truncated with no error. -/
theorem connect_truncates_long_inputs_witness :
    (36 < (List.replicate 40 1 : Bytes).length
      ∧ (mkHeader (List.replicate 40 1) [117] [3]).Token
          = (List.replicate 40 1 : Bytes).take 36)
    ∧ (16 < (List.replicate 20 2 : Bytes).length
      ∧ (mkHeader [7] (List.replicate 20 2) [3]).Version
          = (List.replicate 20 2 : Bytes).take 16)
    ∧ ((List.replicate 40 1 : Bytes).length ≠ 36
      ∧ validTokenAtStartup (List.replicate 40 1) = false) :=
  ⟨⟨by decide,
    (connect_truncates_long_inputs (List.replicate 40 1) [117] [3]).1
      (by decide)⟩,
   ⟨by decide,
    (connect_truncates_long_inputs [7] (List.replicate 20 2) [3]).2.1
      (by decide)⟩,
   ⟨by decide,
    (connect_truncates_long_inputs (List.replicate 40 1) [117] [3]).2.2.2
      (by decide)⟩⟩

/-! ## The `connect` control flow (lines 169-208)

`connect` interacts with the network through a TLS dial, one header write,
one payload write and one status read; we model the outcomes of these
external operations as an oracle and record the I/O actions `connect`
performs, each tagged with the absolute deadline in force when it runs. -/

/-- The constant `timeout = 10 * time.Second` (line 23), in seconds. -/
def timeout : Nat := 10

/-- Outcomes of the external network operations used by `connect`:
`none`/`ok` means the operation succeeded, `some e`/`error e` carries the
underlying error text. The status read yields the `uint16` sent by the
gateway. -/
structure NetOracle where
  dialErr : Option String
  writeHeaderErr : Option String
  writePayloadErr : Option String
  readStatusRes : Except String Nat

/-- The observable I/O actions of `connect`, tagged with the absolute
deadline in force (in seconds since the epoch of `now`). -/
inductive NetEvent where
  | dialAttempt (deadline : Nat)
  | setConnDeadline (deadline : Nat)
  | writeHeader (deadline : Nat)
  | writePayload (deadline : Nat)
  | readStatus (deadline : Nat)
  | clearConnDeadline
  | closeConn
  deriving DecidableEq, Repr

/-- The control flow of `connect` (lines 176-207): compute
`deadline := time.Now().Add(timeout)` once; dial with that deadline; on
success `SetDeadline(deadline)` on the connection, write the header, write
the payload, read the `uint16` status (all under the same deadline), clear
the deadline, and fail with a close on any I/O error or non-200 status.
Returns the result (`ok` = the open connection is returned) and the list
of I/O actions in program order. -/
def connectModel (now : Nat) (gwAddr : String) (o : NetOracle) :
    Except String Unit × List NetEvent :=
  let deadline := now + timeout
  match o.dialErr with
  | some e =>
      (.error ("failed to establish a connection to " ++ gwAddr ++ ": " ++ e),
       [.dialAttempt deadline])
  | none =>
    match o.writeHeaderErr with
    | some e =>
        (.error ("failed to send config to " ++ gwAddr ++ ": " ++ e),
         [.dialAttempt deadline, .setConnDeadline deadline,
          .writeHeader deadline, .closeConn])
    | none =>
      match o.writePayloadErr with
      | some e =>
          (.error ("failed to send config to " ++ gwAddr ++ ": " ++ e),
           [.dialAttempt deadline, .setConnDeadline deadline,
            .writeHeader deadline, .writePayload deadline, .closeConn])
      | none =>
        match o.readStatusRes with
        | .error e =>
            (.error ("failed to read the response from " ++ gwAddr ++ ": " ++ e),
             [.dialAttempt deadline, .setConnDeadline deadline,
              .writeHeader deadline, .writePayload deadline,
              .readStatus deadline, .closeConn])
        | .ok resp =>
            if resp ≠ 200 then
              (.error ("failed to authenticate project on " ++ gwAddr ++ ": "
                  ++ toString resp),
               [.dialAttempt deadline, .setConnDeadline deadline,
                .writeHeader deadline, .writePayload deadline,
                .readStatus deadline, .clearConnDeadline, .closeConn])
            else
              (.ok (),
               [.dialAttempt deadline, .setConnDeadline deadline,
                .writeHeader deadline, .writePayload deadline,
                .readStatus deadline, .clearConnDeadline])

/-- Predicate: `sub` occurs as a contiguous substring of `msg`. -/
def strContains (msg sub : String) : Prop :=
  List.IsInfix sub.data msg.data

theorem strContains_append_right (a b : String) : strContains (a ++ b) b :=
  ⟨a.data, [], by simp [String.data_append]⟩

/-- C2: whenever `connect` fails after a successful dial — a handshake
write error, a payload write error, a status-read error, or a status other
than 200 — the last I/O action before returning is closing the connection,
and `connect` returns an open connection exactly when it returns without
error; in the non-200 case the error message contains the numeric status
received. -/
theorem connect_error_paths_close (now : Nat) (gwAddr : String)
    (o : NetOracle) (hdial : o.dialErr = none) :
    (∀ msg, (connectModel now gwAddr o).1 = .error msg →
        (connectModel now gwAddr o).2.getLast? = some .closeConn)
    ∧ ((connectModel now gwAddr o).1 = .ok () ↔
        NetEvent.closeConn ∉ (connectModel now gwAddr o).2)
    ∧ (∀ s, o.writeHeaderErr = none → o.writePayloadErr = none →
        o.readStatusRes = .ok s → s ≠ 200 →
        (connectModel now gwAddr o).1 =
          .error ("failed to authenticate project on " ++ gwAddr ++ ": "
            ++ toString s)
        ∧ ∀ msg, (connectModel now gwAddr o).1 = .error msg →
            strContains msg (toString s)) := by
  obtain ⟨d, wh, wp, rs⟩ := o
  simp only at hdial
  subst hdial
  cases wh with
  | some e => simp [connectModel]
  | none =>
    cases wp with
    | some e => simp [connectModel]
    | none =>
      cases rs with
      | error e => simp [connectModel]
      | ok s =>
        by_cases hs : s = 200
        · subst hs; simp [connectModel]
        · refine ⟨?_, ?_, ?_⟩
          · intro msg _; simp [connectModel, hs]
          · simp [connectModel, hs]
          · intro s' _ _ hrd hs'
            simp only [Except.ok.injEq] at hrd
            subst hrd
            refine ⟨by simp [connectModel, hs], ?_⟩
            intro msg hmsg
            simp only [connectModel, if_pos hs, Except.error.injEq] at hmsg
            rw [← hmsg]
            exact strContains_append_right _ _

/-- Witness for C2: a gateway that answers status 500. -/
theorem connect_error_paths_close_witness :
    (NetOracle.mk none none none (.ok 500)).dialErr = none
    ∧ (connectModel 0 "gw" (NetOracle.mk none none none (.ok 500))).1 =
        .error "failed to authenticate project on gw: 500"
    ∧ (connectModel 0 "gw"
        (NetOracle.mk none none none (.ok 500))).2.getLast? =
        some NetEvent.closeConn := by
  refine ⟨rfl, ?_, ?_⟩
  · exact ((connect_error_paths_close 0 "gw"
      (NetOracle.mk none none none (.ok 500)) rfl).2.2 500 rfl rfl rfl
      (by decide)).1
  · exact (connect_error_paths_close 0 "gw"
      (NetOracle.mk none none none (.ok 500)) rfl).1 _
      (((connect_error_paths_close 0 "gw"
        (NetOracle.mk none none none (.ok 500)) rfl).2.2 500 rfl rfl rfl
        (by decide)).1)

/-- C3: `connect` computes the single absolute deadline `now + 10` seconds
and applies it unchanged to the dial, the header write, the payload write
and the status read; the deadline is cleared only immediately after the
status read (and only when the read succeeded); and when the dial fails —
in particular with the deadline-exceeded error of the dialer against a gateway
that never accepts — `connect` returns an error carrying that condition. -/
theorem connect_single_deadline (now : Nat) (gwAddr : String) (o : NetOracle) :
    (∀ d, (NetEvent.dialAttempt d ∈ (connectModel now gwAddr o).2
        ∨ NetEvent.setConnDeadline d ∈ (connectModel now gwAddr o).2
        ∨ NetEvent.writeHeader d ∈ (connectModel now gwAddr o).2
        ∨ NetEvent.writePayload d ∈ (connectModel now gwAddr o).2
        ∨ NetEvent.readStatus d ∈ (connectModel now gwAddr o).2) →
        d = now + 10)
    ∧ (NetEvent.clearConnDeadline ∈ (connectModel now gwAddr o).2 ↔
        (o.dialErr = none ∧ o.writeHeaderErr = none
          ∧ o.writePayloadErr = none ∧ ∃ s, o.readStatusRes = .ok s))
    ∧ (NetEvent.clearConnDeadline ∈ (connectModel now gwAddr o).2 →
        List.IsInfix [NetEvent.readStatus (now + 10),
          NetEvent.clearConnDeadline] (connectModel now gwAddr o).2)
    ∧ (∀ e, o.dialErr = some e →
        (connectModel now gwAddr o).1 =
          .error ("failed to establish a connection to " ++ gwAddr ++ ": " ++ e)
        ∧ ∀ msg, (connectModel now gwAddr o).1 = .error msg →
            strContains msg e) := by
  obtain ⟨d, wh, wp, rs⟩ := o
  cases d with
  | some e =>
    refine ⟨?_, ?_, ?_, ?_⟩
    · intro dl hdl
      simp only [connectModel] at hdl
      rcases hdl with h | h | h | h | h <;> simp_all [timeout]
    · simp [connectModel]
    · simp [connectModel]
    · intro e' he'
      simp only [Option.some.injEq] at he'
      subst he'
      exact ⟨by simp [connectModel], fun msg hmsg => by
        simp only [connectModel, Except.error.injEq] at hmsg
        rw [← hmsg]
        exact strContains_append_right _ _⟩
  | none =>
    cases wh with
    | some e =>
      refine ⟨?_, by simp [connectModel], by simp [connectModel],
        by simp [connectModel]⟩
      intro dl hdl
      simp only [connectModel] at hdl
      rcases hdl with h | h | h | h | h <;> simp_all [timeout]
    | none =>
      cases wp with
      | some e =>
        refine ⟨?_, by simp [connectModel], by simp [connectModel],
          by simp [connectModel]⟩
        intro dl hdl
        simp only [connectModel] at hdl
        rcases hdl with h | h | h | h | h <;> simp_all [timeout]
      | none =>
        cases rs with
        | error e =>
          refine ⟨?_, by simp [connectModel], by simp [connectModel],
            by simp [connectModel]⟩
          intro dl hdl
          simp only [connectModel] at hdl
          rcases hdl with h | h | h | h | h <;> simp_all [timeout]
        | ok s =>
          by_cases hs : s = 200
          · subst hs
            refine ⟨?_, by simp [connectModel], ?_, by simp [connectModel]⟩
            · intro dl hdl
              simp only [connectModel] at hdl
              rcases hdl with h | h | h | h | h <;> simp_all [timeout]
            · intro _
              refine ⟨[NetEvent.dialAttempt (now + 10),
                NetEvent.setConnDeadline (now + 10),
                NetEvent.writeHeader (now + 10),
                NetEvent.writePayload (now + 10)], [], ?_⟩
              simp [connectModel, timeout]
          · refine ⟨?_, by simp [connectModel, hs], ?_, by simp [connectModel, hs]⟩
            · intro dl hdl
              simp only [connectModel, if_pos hs] at hdl
              rcases hdl with h | h | h | h | h <;> simp_all [timeout]
            · intro _
              refine ⟨[NetEvent.dialAttempt (now + 10),
                NetEvent.setConnDeadline (now + 10),
                NetEvent.writeHeader (now + 10),
                NetEvent.writePayload (now + 10)],
                [NetEvent.closeConn], ?_⟩
              simp [connectModel, timeout, hs]

/-! ## Tunnel manager reconciliation (`loop` lines 112-141)

`loop` keeps `tunnels`, a map from endpoint address to the running
`Tunnel`; we model it as an association list in insertion order, with a
counter standing for the identity of each created `Tunnel` object (two
calls of `NewTunnel` never return the same object). Go map iteration
order is unspecified, so all statements are set-level. -/

/-- The manager state: the `tunnels` map and a source of fresh tunnel
identities. -/
structure MState where
  tunnels : List (String × Nat)
  nextId : Nat

/-- Association-list lookup, i.e. `tunnels[e]` with the `ok` flag. -/
def lookupEp : List (String × Nat) → String → Option Nat
  | [], _ => none
  | (k, v) :: rest, e => if k = e then some v else lookupEp rest e

/-- First reconciliation loop (lines 127-133): for each resolved endpoint
in order, if no tunnel exists for it, start one (`NewTunnel`) and record
it; returns the updated map, the next fresh identity and the list of
endpoints for which a tunnel was started. -/
def addMissing : List (String × Nat) → Nat → List String →
    List (String × Nat) × Nat × List String
  | ts, n, [] => (ts, n, [])
  | ts, n, e :: rest =>
    match lookupEp ts e with
    | some _ => addMissing ts n rest
    | none =>
      let r := addMissing (ts ++ [(e, n)]) (n + 1) rest
      (r.1, r.2.1, e :: r.2.2)

/-- Second reconciliation loop (lines 134-140): close and remove every
tunnel whose endpoint is not in the fresh set; returns the remaining map
and the list of closed endpoints. -/
def removeStale (ts : List (String × Nat)) (endpoints : List String) :
    List (String × Nat) × List String :=
  (ts.filter (fun p => decide (p.1 ∈ endpoints)),
   (ts.filter (fun p => decide (p.1 ∉ endpoints))).map Prod.fst)

/-- One reconciliation step of `loop` after a successful resolution:
start tunnels for new endpoints, then close tunnels for stale ones.
Returns the new state, the started endpoints and the closed endpoints. -/
def reconcile (st : MState) (endpoints : List String) :
    MState × List String × List String :=
  let a := addMissing st.tunnels st.nextId endpoints
  let r := removeStale a.1 endpoints
  (⟨r.1, a.2.1⟩, a.2.2, r.2)

theorem lookupEp_append (ts us : List (String × Nat)) (e : String) :
    lookupEp (ts ++ us) e =
      match lookupEp ts e with
      | some v => some v
      | none => lookupEp us e := by
  induction ts with
  | nil => simp [lookupEp]
  | cons p rest ih =>
    obtain ⟨k, v⟩ := p
    by_cases hk : k = e <;> simp [lookupEp, hk, ih]

theorem addMissing_lookup_preserved (eps : List String)
    (ts : List (String × Nat)) (n : Nat) (e : String) (v : Nat)
    (h : lookupEp ts e = some v) :
    lookupEp (addMissing ts n eps).1 e = some v := by
  induction eps generalizing ts n with
  | nil => simpa [addMissing] using h
  | cons e' rest ih =>
    cases h' : lookupEp ts e' with
    | some w => simpa [addMissing, h'] using ih ts n h
    | none =>
      simp only [addMissing, h']
      exact ih (ts ++ [(e', n)]) (n + 1)
        (by rw [lookupEp_append, h])

theorem addMissing_lookup_isSome (eps : List String)
    (ts : List (String × Nat)) (n : Nat) (e : String) :
    (lookupEp (addMissing ts n eps).1 e).isSome ↔
      (lookupEp ts e).isSome ∨ e ∈ eps := by
  induction eps generalizing ts n with
  | nil => simp [addMissing]
  | cons e' rest ih =>
    cases h' : lookupEp ts e' with
    | some w =>
      rw [addMissing, h']
      simp only [ih ts n, List.mem_cons]
      constructor
      · rintro (h | h)
        · exact Or.inl h
        · exact Or.inr (Or.inr h)
      · rintro (h | h | h)
        · exact Or.inl h
        · subst h; simp [h']
        · exact Or.inr h
    | none =>
      simp only [addMissing, h', List.mem_cons]
      rw [ih (ts ++ [(e', n)]) (n + 1)]
      rw [lookupEp_append]
      cases he : lookupEp ts e with
      | some w => simp [he]
      | none =>
        simp only [he, Option.isSome_none, lookupEp]
        by_cases hk : e' = e
        · subst hk; simp
        · have hk' : ¬e = e' := fun h => hk h.symm
          simp [hk, hk']

theorem addMissing_started_mem (eps : List String)
    (ts : List (String × Nat)) (n : Nat) (e : String) :
    e ∈ (addMissing ts n eps).2.2 ↔ e ∈ eps ∧ lookupEp ts e = none := by
  induction eps generalizing ts n with
  | nil => simp [addMissing]
  | cons e' rest ih =>
    cases h' : lookupEp ts e' with
    | some w =>
      rw [addMissing, h']
      simp only [ih ts n, List.mem_cons]
      constructor
      · rintro ⟨h, hn⟩; exact ⟨Or.inr h, hn⟩
      · rintro ⟨h | h, hn⟩
        · subst h; rw [h'] at hn; exact absurd hn (by simp)
        · exact ⟨h, hn⟩
    | none =>
      simp only [addMissing, h', List.mem_cons]
      rw [ih (ts ++ [(e', n)]) (n + 1), lookupEp_append]
      constructor
      · rintro (h | ⟨hm, hn⟩)
        · exact ⟨Or.inl h, by subst h; exact h'⟩
        · cases he : lookupEp ts e with
          | some w => rw [he] at hn; simp at hn
          | none => exact ⟨Or.inr hm, rfl⟩
      · rintro ⟨h | h, hn⟩
        · exact Or.inl h
        · by_cases hk : e = e'
          · exact Or.inl hk
          · refine Or.inr ⟨h, ?_⟩
            rw [hn]
            have hk' : e' ≠ e := fun hh => hk hh.symm
            simp [lookupEp, hk']

theorem addMissing_all_present (eps : List String)
    (ts : List (String × Nat)) (n : Nat)
    (h : ∀ e ∈ eps, (lookupEp ts e).isSome) :
    addMissing ts n eps = (ts, n, []) := by
  induction eps with
  | nil => simp [addMissing]
  | cons e' rest ih =>
    have he' : (lookupEp ts e').isSome := h e' (by simp)
    cases h' : lookupEp ts e' with
    | none => rw [h'] at he'; simp at he'
    | some w =>
      rw [addMissing, h']
      exact ih fun e he => h e (by simp [he])

theorem lookupEp_filter_keys (P : String → Bool)
    (ts : List (String × Nat)) (e : String) :
    lookupEp (ts.filter (fun p => P p.1)) e =
      if P e then lookupEp ts e else none := by
  induction ts with
  | nil => simp [lookupEp]
  | cons p rest ih =>
    obtain ⟨k, v⟩ := p
    by_cases hk : k = e
    · subst hk
      by_cases hp : P k <;> simp [lookupEp, hp, ih]
    · by_cases hp : P k <;> simp [List.filter, lookupEp, hp, hk, ih]

theorem mem_keys_iff_lookup_isSome (ts : List (String × Nat)) (e : String) :
    e ∈ ts.map Prod.fst ↔ (lookupEp ts e).isSome := by
  induction ts with
  | nil => simp [lookupEp]
  | cons p rest ih =>
    obtain ⟨k, v⟩ := p
    by_cases hk : k = e
    · subst hk; simp [lookupEp]
    · have hk' : ¬e = k := fun h => hk h.symm
      simp [lookupEp, hk, hk', ih]

theorem removeStale_closed_mem (ts : List (String × Nat))
    (eps : List String) (e : String) :
    e ∈ (removeStale ts eps).2 ↔ (lookupEp ts e).isSome ∧ e ∉ eps := by
  unfold removeStale
  rw [mem_keys_iff_lookup_isSome]
  rw [lookupEp_filter_keys (fun k => decide (k ∉ eps)) ts e]
  by_cases he : e ∈ eps <;> simp [he]

theorem removeStale_kept_lookup (ts : List (String × Nat))
    (eps : List String) (e : String) :
    lookupEp (removeStale ts eps).1 e =
      if e ∈ eps then lookupEp ts e else none := by
  unfold removeStale
  rw [lookupEp_filter_keys (fun k => decide (k ∈ eps)) ts e]
  by_cases he : e ∈ eps <;> simp [he]

/-- C4: one reconciliation step starts a tunnel for exactly the resolved
endpoints not already present, closes exactly the tunnels whose endpoints
are absent from the fresh list, keeps the tunnel of every still-present endpoint
untouched (same `Tunnel` identity), leaves the map holding exactly
the fresh endpoints, and reconciling the same endpoint set again starts
and stops nothing and leaves the state unchanged. -/
theorem reconcile_correct (st : MState) (eps : List String) :
    (∀ e, e ∈ (reconcile st eps).2.1 ↔
        e ∈ eps ∧ lookupEp st.tunnels e = none)
    ∧ (∀ e, e ∈ (reconcile st eps).2.2 ↔
        (lookupEp st.tunnels e).isSome ∧ e ∉ eps)
    ∧ (∀ e v, lookupEp st.tunnels e = some v → e ∈ eps →
        lookupEp (reconcile st eps).1.tunnels e = some v)
    ∧ (∀ e, (lookupEp (reconcile st eps).1.tunnels e).isSome ↔ e ∈ eps)
    ∧ reconcile (reconcile st eps).1 eps = ((reconcile st eps).1, [], []) := by
  have hstart : ∀ e, e ∈ (reconcile st eps).2.1 ↔
      e ∈ eps ∧ lookupEp st.tunnels e = none := by
    intro e
    exact addMissing_started_mem eps st.tunnels st.nextId e
  have hclosed : ∀ e, e ∈ (reconcile st eps).2.2 ↔
      (lookupEp st.tunnels e).isSome ∧ e ∉ eps := by
    intro e
    show e ∈ (removeStale (addMissing st.tunnels st.nextId eps).1 eps).2 ↔ _
    rw [removeStale_closed_mem]
    constructor
    · rintro ⟨hsome, hnot⟩
      rw [addMissing_lookup_isSome] at hsome
      rcases hsome with h | h
      · exact ⟨h, hnot⟩
      · exact absurd h hnot
    · rintro ⟨hsome, hnot⟩
      refine ⟨?_, hnot⟩
      rw [addMissing_lookup_isSome]
      exact Or.inl hsome
  have hkept : ∀ e v, lookupEp st.tunnels e = some v → e ∈ eps →
      lookupEp (reconcile st eps).1.tunnels e = some v := by
    intro e v hv he
    show lookupEp (removeStale (addMissing st.tunnels st.nextId eps).1 eps).1 e
        = some v
    rw [removeStale_kept_lookup, if_pos he]
    exact addMissing_lookup_preserved eps st.tunnels st.nextId e v hv
  have hdom : ∀ e, (lookupEp (reconcile st eps).1.tunnels e).isSome ↔
      e ∈ eps := by
    intro e
    show (lookupEp
        (removeStale (addMissing st.tunnels st.nextId eps).1 eps).1 e).isSome
      ↔ _
    rw [removeStale_kept_lookup]
    by_cases he : e ∈ eps
    · rw [if_pos he, addMissing_lookup_isSome]
      simp [he]
    · simp [he]
  refine ⟨hstart, hclosed, hkept, hdom, ?_⟩
  have hall : ∀ e ∈ eps, (lookupEp (reconcile st eps).1.tunnels e).isSome :=
    fun e he => (hdom e).mpr he
  have hadd : addMissing (reconcile st eps).1.tunnels
      (reconcile st eps).1.nextId eps =
      ((reconcile st eps).1.tunnels, (reconcile st eps).1.nextId, []) :=
    addMissing_all_present eps _ _ hall
  have hkeys : ∀ p ∈ (reconcile st eps).1.tunnels, p.1 ∈ eps := by
    intro p hp
    have := (hdom p.1).mp ?_
    · exact this
    · rw [← mem_keys_iff_lookup_isSome]
      exact List.mem_map_of_mem Prod.fst hp
  have hrem : removeStale (reconcile st eps).1.tunnels eps =
      ((reconcile st eps).1.tunnels, []) := by
    have h1 : List.filter (fun p => decide (p.1 ∈ eps))
        (reconcile st eps).1.tunnels = (reconcile st eps).1.tunnels := by
      rw [List.filter_eq_self]
      intro p hp
      simpa using hkeys p hp
    have h2 : List.filter (fun p => decide (p.1 ∉ eps))
        (reconcile st eps).1.tunnels = [] := by
      rw [List.filter_eq_nil_iff]
      intro p hp
      simpa using hkeys p hp
    unfold removeStale
    rw [h1, h2]
    simp
  have hstep : ∀ st' : MState,
      addMissing st'.tunnels st'.nextId eps = (st'.tunnels, st'.nextId, []) →
      removeStale st'.tunnels eps = (st'.tunnels, []) →
      reconcile st' eps = (st', [], []) := by
    intro st' hadd' hrem'
    have h1 : reconcile st' eps =
        (⟨(removeStale (addMissing st'.tunnels st'.nextId eps).1 eps).1,
          (addMissing st'.tunnels st'.nextId eps).2.1⟩,
         (addMissing st'.tunnels st'.nextId eps).2.2,
         (removeStale (addMissing st'.tunnels st'.nextId eps).1 eps).2) := rfl
    rw [h1, hadd']
    show (⟨(removeStale st'.tunnels eps).1, st'.nextId⟩, ([] : List String),
        (removeStale st'.tunnels eps).2) = (st', [], [])
    rw [hrem']
  exact hstep _ hadd hrem

/-- Witness for C3: a dial that fails with the deadline error of the dialer. -/
theorem connect_single_deadline_witness :
    (NetOracle.mk (some "context deadline exceeded") none none
        (.ok 200)).dialErr = some "context deadline exceeded"
    ∧ (connectModel 5 "gw" (NetOracle.mk (some "context deadline exceeded")
        none none (.ok 200))).1 =
      .error "failed to establish a connection to gw: context deadline exceeded" :=
  ⟨rfl,
    ((connect_single_deadline 5 "gw"
      (NetOracle.mk (some "context deadline exceeded") none none
        (.ok 200))).2.2.2 "context deadline exceeded" rfl).1⟩

/-- Witness for C4: tunnels for {A, B}, fresh resolution {B, C}. -/
theorem reconcile_correct_witness :
    ("C" ∈ (reconcile ⟨[("A", 0), ("B", 1)], 2⟩ ["B", "C"]).2.1 ↔
        "C" ∈ ["B", "C"] ∧ lookupEp [("A", 0), ("B", 1)] "C" = none)
    ∧ ("A" ∈ (reconcile ⟨[("A", 0), ("B", 1)], 2⟩ ["B", "C"]).2.2 ↔
        (lookupEp [("A", 0), ("B", 1)] "A").isSome ∧ "A" ∉ ["B", "C"])
    ∧ (lookupEp [("A", 0), ("B", 1)] "B" = some 1 ∧ "B" ∈ ["B", "C"] ∧
        lookupEp (reconcile ⟨[("A", 0), ("B", 1)], 2⟩ ["B", "C"]).1.tunnels "B"
          = some 1) :=
  ⟨(reconcile_correct ⟨[("A", 0), ("B", 1)], 2⟩ ["B", "C"]).1 "C",
   (reconcile_correct ⟨[("A", 0), ("B", 1)], 2⟩ ["B", "C"]).2.1 "A",
   by decide, by decide,
   (reconcile_correct ⟨[("A", 0), ("B", 1)], 2⟩ ["B", "C"]).2.2.1 "B" 1
     (by decide) (by decide)⟩

/-! ## Backoff policy (lines 26-28, `keepConnected` lines 54-74, `loop`
lines 114-124)

Both retry loops use `backoff.Backoff{Factor: 2, Min: 5s, Max: 60s}` from
`jpillora/backoff`: `Duration()` returns `Min * Factor^attempt` capped at
`Max` and increments the attempt counter; `Reset()` sets the counter back
to zero. For these parameters the float64 arithmetic of the library is
exact, so we model durations in whole seconds. -/

/-- The constant `backoffMin = 5 * time.Second`, in seconds. -/
def backoffMin : Nat := 5

/-- The constant `backoffMax = time.Minute`, in seconds. -/
def backoffMax : Nat := 60

/-- The library call `Backoff.ForAttempt` with `Factor = 2`: `Min * 2^attempt`, capped at
`Max`. -/
def backoffDuration (attempt : Nat) : Nat :=
  min (backoffMin * 2 ^ attempt) backoffMax

/-- Outcome of one iteration of the `keepConnected` loop body. -/
inductive AttemptOutcome where
  | connectFailed
  | relayedThenDropped

/-- The backoff-counter update of one `keepConnected` iteration
(lines 62-71): a failed `connect` sleeps `b.Duration()` (incrementing the
attempt counter); a successful `connect` runs `b.Reset()` before relaying,
so when the relay session later drops the counter is back at zero.
Returns the new counter and the emitted wait, if any. -/
def keepConnectedStep (attempt : Nat) : AttemptOutcome → Nat × Option Nat
  | .connectFailed => (attempt + 1, some (backoffDuration attempt))
  | .relayedThenDropped => (0, none)

/-- A run of `keepConnected` over a sequence of iteration outcomes:
the final counter and the sequence of backoff waits slept. -/
def runTunnel : Nat → List AttemptOutcome → Nat × List Nat
  | a, [] => (a, [])
  | a, o :: rest =>
    let s := keepConnectedStep a o
    let r := runTunnel s.1 rest
    (r.1, s.2.toList ++ r.2)

/-- The backoff update of the resolver loop (`loop` lines 117-124): a failed
`getEndpoints` sleeps `b.Duration()`; a success runs `b.Reset()`. -/
def loopStep (attempt : Nat) : Bool → Nat × Option Nat
  | false => (attempt + 1, some (backoffDuration attempt))
  | true => (0, none)

theorem runTunnel_replicate (n a : Nat) :
    runTunnel a (List.replicate n .connectFailed) =
      (a + n, (List.range' a n).map backoffDuration) := by
  induction n generalizing a with
  | zero => simp [runTunnel]
  | succ m ih =>
    rw [List.replicate_succ, runTunnel]
    simp only [keepConnectedStep, ih (a + 1), List.range'_succ]
    rw [Prod.mk.injEq]
    exact ⟨by omega, by simp [Option.toList]⟩

/-- C5: the backoff wait over consecutive failures is `min (5·2^n) 60`
seconds — exponential with factor 2 up to the 60-second cap — hence
non-decreasing, at least 5 and at most 60 seconds; the n-th consecutive
failure of a fresh tunnel waits exactly that; and any success (including a
`connect` that succeeds and whose relay session later drops, and a
resolver success) resets the next wait to the 5-second minimum. -/
theorem backoff_policy :
    (∀ n, backoffMin ≤ backoffDuration n ∧ backoffDuration n ≤ backoffMax)
    ∧ (∀ n, backoffDuration n ≤ backoffDuration (n + 1))
    ∧ (∀ n, backoffDuration (n + 1) = min (2 * backoffDuration n) backoffMax)
    ∧ (∀ n, runTunnel 0 (List.replicate n .connectFailed) =
        (n, (List.range n).map backoffDuration))
    ∧ (∀ a, (keepConnectedStep
        (keepConnectedStep a .relayedThenDropped).1 .connectFailed).2 =
        some backoffMin)
    ∧ (∀ a, (loopStep (loopStep a true).1 false).2 = some backoffMin) := by
  have hpos : ∀ n : Nat, 1 ≤ 2 ^ n := fun n => Nat.one_le_two_pow
  refine ⟨?_, ?_, ?_, ?_, ?_, ?_⟩
  · intro n
    have := hpos n
    simp only [backoffDuration, backoffMin, backoffMax]
    omega
  · intro n
    have h1 := hpos n
    simp only [backoffDuration, backoffMin, backoffMax, pow_succ]
    omega
  · intro n
    simp only [backoffDuration, backoffMin, backoffMax, pow_succ]
    omega
  · intro n
    rw [runTunnel_replicate, List.range_eq_range']
    simp
  · intro a
    simp [keepConnectedStep, backoffDuration, backoffMin, backoffMax]
  · intro a
    simp [loopStep, backoffDuration, backoffMin, backoffMax]

/-! ## Endpoint resolver (`getEndpoints`, lines 145-161) -/

/-- The parts of a Go `http.Request` that `getEndpoints` sets. -/
structure HttpRequest where
  method : String
  url : String
  headers : List (String × String)

/-- Lines 146-147: `http.NewRequest("GET", resolverUrl, nil)` and
`req.Header.Set("X-Token", token)`. -/
def endpointsRequest (resolverUrl token : String) : HttpRequest :=
  { method := "GET", url := resolverUrl, headers := [("X-Token", token)] }

/-- The parts of a Go `http.Response` that `getEndpoints` reads:
the numeric `StatusCode`, the textual `Status` (e.g. `"404 Not Found"`),
and the outcome of `io.ReadAll(resp.Body)`. -/
structure HttpResponse where
  StatusCode : Nat
  Status : String
  bodyRead : Except String String

/-- The Go `unicode.IsSpace` predicate restricted to the Latin-1 range (the space
characters relevant to `strings.TrimSpace` on endpoint lists):
`'\t'`, `'\n'`, `'\v'`, `'\f'`, `'\r'`, `' '`, U+0085 and U+00A0. -/
def goIsSpace (c : Char) : Bool :=
  c == ' ' || c == '\t' || c == '\n' || c == '\x0b' || c == '\x0c'
    || c == '\r' || c == '\x85' || c == '\xa0'

/-- Go `strings.TrimSpace`: drop leading and trailing space characters. -/
def goTrimSpace (s : String) : String :=
  ⟨((s.data.dropWhile goIsSpace).reverse.dropWhile goIsSpace).reverse⟩

/-- Go `strings.Split` with a one-character separator: the substrings
between consecutive separators; an empty subject yields `[[]]`, i.e. the
one-element list holding the empty string. -/
def goSplit (sep : Char) : List Char → List (List Char)
  | [] => [[]]
  | c :: rest =>
    match goSplit sep rest with
    | [] => [[]]
    | g :: gs => if c = sep then [] :: g :: gs else (c :: g) :: gs

/-- The function `getEndpoints` (lines 145-161), with the HTTP round trip abstracted as
`doRequest`: build the GET request with the `X-Token` header; on transport
error return it; read the body, returning a read error; on a status other
than 200 fail with `resp.Status ++ ": " ++ body`; otherwise split the
whitespace-trimmed body on `';'` (Go `strings.Split`, which yields `[""]`
on an empty subject). -/
def getEndpoints (resolverUrl token : String)
    (doRequest : HttpRequest → Except String HttpResponse) :
    Except String (List String) :=
  match doRequest (endpointsRequest resolverUrl token) with
  | .error e => .error e
  | .ok resp =>
    match resp.bodyRead with
    | .error e => .error e
    | .ok payload =>
      if resp.StatusCode ≠ 200 then
        .error (resp.Status ++ ": " ++ payload)
      else
        .ok ((goSplit ';' (goTrimSpace payload).data).map
          fun l => (⟨l⟩ : String))

theorem strContains_append_left (a b : String) : strContains (a ++ b) a :=
  ⟨[], b.data, by simp [String.data_append]⟩

/-- C6: `getEndpoints` issues a GET whose headers carry the project token
under `X-Token`; a transport error or body-read error is returned as-is;
any status other than 200 yields an error whose message carries both the
response status text and the body; and on status 200 the body, trimmed of
surrounding whitespace, is split into endpoints on `';'`. -/
theorem getEndpoints_contract (url token : String)
    (doRequest : HttpRequest → Except String HttpResponse) :
    ((endpointsRequest url token).method = "GET"
      ∧ ("X-Token", token) ∈ (endpointsRequest url token).headers)
    ∧ (∀ e, doRequest (endpointsRequest url token) = .error e →
        getEndpoints url token doRequest = .error e)
    ∧ (∀ resp payload, doRequest (endpointsRequest url token) = .ok resp →
        resp.bodyRead = .ok payload → resp.StatusCode ≠ 200 →
        getEndpoints url token doRequest =
          .error (resp.Status ++ ": " ++ payload)
        ∧ strContains (resp.Status ++ ": " ++ payload) resp.Status
        ∧ strContains (resp.Status ++ ": " ++ payload) payload)
    ∧ (∀ resp payload, doRequest (endpointsRequest url token) = .ok resp →
        resp.bodyRead = .ok payload → resp.StatusCode = 200 →
        getEndpoints url token doRequest =
          .ok ((goSplit ';' (goTrimSpace payload).data).map
            fun l => (⟨l⟩ : String))) := by
  refine ⟨⟨rfl, by simp [endpointsRequest]⟩, ?_, ?_, ?_⟩
  · intro e he
    simp [getEndpoints, he]
  · intro resp payload hreq hbody hst
    refine ⟨by simp [getEndpoints, hreq, hbody, hst], ?_, ?_⟩
    · have : resp.Status ++ ": " ++ payload =
          resp.Status ++ (": " ++ payload) := by
        rw [String.append_assoc]
      rw [this]
      exact strContains_append_left _ _
    · exact strContains_append_right _ _
  · intro resp payload hreq hbody hst
    simp [getEndpoints, hreq, hbody, hst]

/-- A resolver stub answering 404 with body `"nope"`, for the C6 witness. -/
def resolver404 : HttpRequest → Except String HttpResponse :=
  fun _ => .ok (HttpResponse.mk 404 "404 Not Found" (.ok "nope"))

/-- A resolver stub answering 200 with a fixed body, for the C9 theorem. -/
def resolverBlank (body : String) : HttpRequest → Except String HttpResponse :=
  fun _ => .ok (HttpResponse.mk 200 "200 OK" (.ok body))

/-- Witness for C6: a resolver that answers 404 with body `"nope"`. -/
theorem getEndpoints_contract_witness :
    resolver404 (endpointsRequest "u" "t") =
      .ok (HttpResponse.mk 404 "404 Not Found" (.ok "nope"))
    ∧ getEndpoints "u" "t" resolver404 = .error "404 Not Found: nope" :=
  ⟨rfl,
    ((getEndpoints_contract "u" "t" resolver404).2.2.1
      (HttpResponse.mk 404 "404 Not Found" (.ok "nope")) "nope" rfl rfl
      (by decide)).1⟩

/-- C9: a 200 response whose body is empty or all whitespace makes
`getEndpoints` return the one-element list `[""]` rather than an empty
list, and a reconciliation against that desired set starts a tunnel whose
endpoint address is the empty string. -/
theorem getEndpoints_blank_body_starts_empty_tunnel :
    getEndpoints "u" "t" (resolverBlank "") = .ok [""]
    ∧ getEndpoints "u" "t" (resolverBlank " \t\n ") = .ok [""]
    ∧ (reconcile ⟨[], 0⟩ [""]).2.1 = [""]
    ∧ lookupEp (reconcile ⟨[], 0⟩ [""]).1.tunnels "" = some 0 := by
  exact ⟨by rfl, by rfl, by rfl, by rfl⟩

/-! ## Per-stream relay (`proxy`, goroutine at lines 230-262)

For each accepted logical stream, `proxy` spawns an independent goroutine
that sets a deadline, reads the destination frame (a little-endian
`uint16` length and exactly that many address bytes), dials the
destination and relays bytes both ways. We model the outcomes of the
external calls as an oracle (`input` is the byte sequence readable from
the stream) and record the actions the handler performs. -/

/-- Outcomes of the external calls made by the per-stream goroutine. -/
structure StreamOracle where
  setStreamDeadlineErr : Option String
  input : Bytes
  dialDestErr : Option String
  setDestDeadlineErr : Option String

/-- Observable actions of one stream handler. -/
inductive StreamAction where
  | dialDest (address : Bytes)
  | copyBidirectional (address : Bytes)
  | closeDest
  | closeStream
  deriving DecidableEq, Repr

/-- The per-stream goroutine (lines 230-262): the deferred `c.Close()` always
closes the stream on exit; a deadline-set error aborts; `binary.Read` of
the little-endian `uint16` length needs two bytes; `io.ReadFull` needs
exactly that many further bytes; a destination-dial error aborts; then
`defer destConn.Close()`, the destination deadline, and the two
concurrent copies. On every failure the handler just returns — there is
no retry. -/
def handleStream (o : StreamOracle) : List StreamAction :=
  match o.setStreamDeadlineErr with
  | some _ => [.closeStream]
  | none =>
    match o.input with
    | [] => [.closeStream]
    | [_] => [.closeStream]
    | b0 :: b1 :: rest =>
      let dstLen := b0 + 256 * b1
      if dstLen ≤ rest.length then
        let destAddress := rest.take dstLen
        match o.dialDestErr with
        | some _ => [.dialDest destAddress, .closeStream]
        | none =>
          match o.setDestDeadlineErr with
          | some _ => [.dialDest destAddress, .closeDest, .closeStream]
          | none => [.dialDest destAddress,
              .copyBidirectional destAddress, .closeDest, .closeStream]
      else [.closeStream]

/-- The accept loop of `proxy` (lines 220-264) spawns one independent
handler per accepted stream; the session-level behavior is the per-stream
handlers side by side. -/
def proxySession (streams : List StreamOracle) : List (List StreamAction) :=
  streams.map handleStream

/-- Does an action dial a destination? -/
def isDial : StreamAction → Bool
  | .dialDest _ => true
  | _ => false

/-- C7: the stream handler reads a little-endian `uint16` length and then
exactly that many bytes as the destination; on a short read, an I/O error
or a dial failure it aborts without copying; it always closes its own
stream last; it never dials more than once (no retry); and the actions of each stream are a function of that stream only, so a failure in one stream
leaves the other streams of the session unchanged. -/
theorem proxy_stream_isolation (o : StreamOracle) :
    (∀ b0 b1 rest, o.setStreamDeadlineErr = none →
        o.input = b0 :: b1 :: rest → b0 + 256 * b1 ≤ rest.length →
        StreamAction.dialDest (rest.take (b0 + 256 * b1)) ∈ handleStream o)
    ∧ (o.setStreamDeadlineErr = none → o.input.length < 2 →
        handleStream o = [.closeStream])
    ∧ (∀ b0 b1 rest, o.setStreamDeadlineErr = none →
        o.input = b0 :: b1 :: rest → rest.length < b0 + 256 * b1 →
        handleStream o = [.closeStream])
    ∧ (∀ b0 b1 rest e, o.setStreamDeadlineErr = none →
        o.input = b0 :: b1 :: rest → b0 + 256 * b1 ≤ rest.length →
        o.dialDestErr = some e →
        handleStream o =
          [.dialDest (rest.take (b0 + 256 * b1)), .closeStream])
    ∧ (handleStream o).getLast? = some .closeStream
    ∧ (handleStream o).countP isDial ≤ 1
    ∧ (∀ (ss₁ ss₂ : List StreamOracle),
        proxySession (ss₁ ++ o :: ss₂) =
          proxySession ss₁ ++ handleStream o :: proxySession ss₂) := by
  obtain ⟨sd, input, dd, sdd⟩ := o
  refine ⟨?_, ?_, ?_, ?_, ?_, ?_, ?_⟩
  · intro b0 b1 rest hsd hin hlen
    simp only at hsd hin
    subst hsd hin
    simp only [handleStream, if_pos hlen]
    cases dd <;> cases sdd <;> simp
  · intro hsd hlen
    simp only at hsd
    subst hsd
    match input with
    | [] => simp [handleStream]
    | [b] => simp [handleStream]
    | b0 :: b1 :: rest => simp at hlen; omega
  · intro b0 b1 rest hsd hin hlen
    simp only at hsd hin
    subst hsd hin
    simp [handleStream, Nat.not_le.mpr hlen]
  · intro b0 b1 rest e hsd hin hlen hdd
    simp only at hsd hin hdd
    subst hsd hin hdd
    simp [handleStream, if_pos hlen]
  · cases sd with
    | some e => simp [handleStream]
    | none =>
      match input with
      | [] => simp [handleStream]
      | [b] => simp [handleStream]
      | b0 :: b1 :: rest =>
        by_cases hlen : b0 + 256 * b1 ≤ rest.length
        · simp only [handleStream, if_pos hlen]
          cases dd <;> cases sdd <;> simp
        · simp [handleStream, hlen]
  · cases sd with
    | some e => simp [handleStream, isDial]
    | none =>
      match input with
      | [] => simp [handleStream, isDial]
      | [b] => simp [handleStream, isDial]
      | b0 :: b1 :: rest =>
        by_cases hlen : b0 + 256 * b1 ≤ rest.length
        · simp only [handleStream, if_pos hlen]
          cases dd <;> cases sdd <;> simp [isDial]
        · simp [handleStream, hlen, isDial]
  · intro ss₁ ss₂
    simp [proxySession]

/-- Witness for C7: a stream carrying the 2-byte length 3 and destination
bytes `[65, 66, 67]`, whose dial fails. -/
theorem proxy_stream_isolation_witness :
    handleStream (StreamOracle.mk none [3, 0, 65, 66, 67] (some "refused")
        none) = [.dialDest [65, 66, 67], .closeStream]
    ∧ (handleStream (StreamOracle.mk none [3, 0, 65, 66, 67] (some "refused")
        none)).getLast? = some .closeStream := by
  constructor
  · have := (proxy_stream_isolation
      (StreamOracle.mk none [3, 0, 65, 66, 67] (some "refused") none)).2.2.2.1
      3 0 [65, 66, 67] "refused" rfl rfl (by decide) rfl
    simpa using this
  · exact (proxy_stream_isolation
      (StreamOracle.mk none [3, 0, 65, 66, 67] (some "refused")
        none)).2.2.2.2.1

/-! ## Tunnel connection lifecycle (`keepConnected`, lines 54-74)

`keepConnected` is one sequential loop: check cancellation; call
`connect`; on failure sleep the backoff and retry; on success run `proxy`
to completion and then close the connection. We model it as a state
machine over the control position of the loop together with the number of
gateway connections the tunnel currently holds open; connections are
opened only by a successful `connect` (+1) and closed only after `proxy`
returns (-1). -/

/-- Control position inside the `keepConnected` loop. -/
inductive TunnelPhase where
  | connecting
  | relaying
  | backoffSleeping
  | closed
  deriving DecidableEq, Repr

/-- State of a tunnel: control position and open gateway connections. -/
structure TunnelState where
  phase : TunnelPhase
  activeConns : Nat
  deriving DecidableEq, Repr

/-- The transitions of `keepConnected`: a failed `connect` opens nothing
and goes to the backoff sleep (lines 63-67); a successful `connect` opens
one connection and enters the relay (lines 62, 70); when `proxy` returns
the connection is closed (line 71) and the loop re-enters the select; the
backoff sleep ends back at the select; observing cancellation at the
select returns (lines 59-60). -/
inductive TunnelStep : TunnelState → TunnelState → Prop where
  | connectFail (n : Nat) :
      TunnelStep ⟨.connecting, n⟩ ⟨.backoffSleeping, n⟩
  | connectSuccess (n : Nat) :
      TunnelStep ⟨.connecting, n⟩ ⟨.relaying, n + 1⟩
  | relayEnd (n : Nat) :
      TunnelStep ⟨.relaying, n⟩ ⟨.connecting, n - 1⟩
  | sleepDone (n : Nat) :
      TunnelStep ⟨.backoffSleeping, n⟩ ⟨.connecting, n⟩
  | cancelObserved (n : Nat) :
      TunnelStep ⟨.connecting, n⟩ ⟨.closed, n⟩

/-- States reachable from the start of `keepConnected` (no connection). -/
inductive TunnelReachable : TunnelState → Prop where
  | init : TunnelReachable ⟨.connecting, 0⟩
  | step {s s' : TunnelState} :
      TunnelReachable s → TunnelStep s s' → TunnelReachable s'

theorem tunnelReachable_conns (s : TunnelState) (h : TunnelReachable s) :
    (s.phase = .relaying → s.activeConns = 1)
    ∧ (s.phase ≠ .relaying → s.activeConns = 0) := by
  induction h with
  | init => simp
  | step hr hs ih =>
    cases hs with
    | connectFail n =>
      obtain ⟨_, h0⟩ := ih
      simp_all
    | connectSuccess n =>
      obtain ⟨_, h0⟩ := ih
      simp_all
    | relayEnd n =>
      obtain ⟨h1, _⟩ := ih
      simp_all
    | sleepDone n =>
      obtain ⟨_, h0⟩ := ih
      simp_all
    | cancelObserved n =>
      obtain ⟨_, h0⟩ := ih
      simp_all

/-- C8: in every reachable state of the state machine of one tunnel at most one
gateway connection is open — exactly one while relaying, none otherwise;
the only transition into the relay is a successful `connect` (which opens
the connection); and the only transitions back into `connecting` are the
end of a relay, which closes its connection, and the end of a backoff
sleep, which holds none. -/
theorem tunnel_single_connection (s : TunnelState)
    (h : TunnelReachable s) :
    s.activeConns ≤ 1
    ∧ (s.phase = .relaying ↔ s.activeConns = 1)
    ∧ (∀ t t' : TunnelState, TunnelStep t t' → t'.phase = .relaying →
        t.phase = .connecting ∧ t'.activeConns = t.activeConns + 1)
    ∧ (∀ t t' : TunnelState, TunnelStep t t' → t.phase = .relaying →
        t'.phase = .connecting ∧ t'.activeConns = t.activeConns - 1)
    ∧ (∀ t t' : TunnelState, TunnelStep t t' → t'.phase = .connecting →
        TunnelReachable t → t'.activeConns = 0) := by
  obtain ⟨h1, h0⟩ := tunnelReachable_conns s h
  refine ⟨?_, ⟨h1, ?_⟩, ?_, ?_, ?_⟩
  · by_cases hp : s.phase = .relaying
    · have := h1 hp; omega
    · have := h0 hp; omega
  · intro hc
    by_contra hp
    have := h0 hp
    omega
  · intro t t' hs hp
    cases hs <;> simp_all
  · intro t t' hs hp
    cases hs <;> simp_all
  · intro t t' hs hp hr
    obtain ⟨g1, g0⟩ := tunnelReachable_conns t hr
    cases hs with
    | connectFail n => simp_all
    | connectSuccess n => simp_all
    | relayEnd n =>
      have := g1 rfl
      simp_all
    | sleepDone n =>
      have := g0 (by simp)
      simp_all
    | cancelObserved n => simp_all

/-- Witness for C8: the state reached by a successful `connect` is the
relay with exactly one open connection. -/
theorem tunnel_single_connection_witness :
    TunnelReachable ⟨.relaying, 1⟩
    ∧ (TunnelState.mk .relaying 1).activeConns ≤ 1
    ∧ ((TunnelState.mk .relaying 1).phase = .relaying ↔
        (TunnelState.mk .relaying 1).activeConns = 1) := by
  have hr : TunnelReachable ⟨.relaying, 1⟩ :=
    TunnelReachable.step TunnelReachable.init (TunnelStep.connectSuccess 0)
  exact ⟨hr, (tunnel_single_connection ⟨.relaying, 1⟩ hr).1,
    (tunnel_single_connection ⟨.relaying, 1⟩ hr).2.1⟩

end CorootConnect
